import Mathlib

/-!
Verification of the PaceUp backend against its specification.

The development shallowly embeds the Python source:

* `app/services/training_plan_service.py` — the AI-response extraction
  pipeline of `generate_training_plan` (fenced-block regex, balanced-brace
  scans, greedy regex fallback, trailing-comma repair, strict JSON parse,
  structural validation) and the request/plan persistence flow;
* `app/api/v1/training.py` — the plan endpoints (`get_plan`,
  `update_activity_completion`, `get_plan_progress`) over an explicit
  relational state;
* `app/api/v1/strava.py` — the `sync_all` bulk loop and its rate-limit
  propagation;
* `app/mcp/server.py` — pace derivation in `get_activities` and the
  empty-window behaviour of `get_performance_trends`.

Strings are modelled as `List Char` (Python `str`), floats as `ℚ` with
Python `round`'s banker's rounding made explicit, database tables as lists
of rows, and effectful calls (OpenAI, Strava, the ORM session) as explicit
inputs / state passing.
-/

namespace PaceUp

/-! ## Character/string helpers (Python `str` operations over `List Char`) -/

/-- Python regex `\s` over ASCII: space, tab, newline, carriage return,
vertical tab, form feed.  Python `str.strip()` uses the same set. -/
def isPySpace (c : Char) : Bool :=
  c = ' ' || c = '\t' || c = '\n' || c = '\r' || c = Char.ofNat 11 || c = Char.ofNat 12

/-- `str.strip()`: drop leading and trailing whitespace. -/
def lstrip (cs : List Char) : List Char := cs.dropWhile isPySpace

def rstrip (cs : List Char) : List Char := (cs.reverse.dropWhile isPySpace).reverse

def strip (cs : List Char) : List Char := lstrip (rstrip cs)

/-- Python `text.find(pat)` (index of the first occurrence, `None` for -1). -/
def findSubIdx : List Char → List Char → Option Nat
  | cs, pat =>
    if pat.isPrefixOf cs then some 0
    else
      match cs with
      | [] => none
      | _ :: rest => (findSubIdx rest pat).map (· + 1)

/-! ## The completion extractor of `generate_training_plan`
(`app/services/training_plan_service.py`, lines 99–184) -/

/-- The markdown fence delimiter. -/
def ticks : List Char := ['`', '`', '`']

/-- The prefix of everything before the first ``` occurrence, `none` when
there is no occurrence. -/
def takeUntilTicks : List Char → Option (List Char)
  | [] => none
  | c :: rest =>
    if ticks.isPrefixOf (c :: rest) then some []
    else (takeUntilTicks rest).map (c :: ·)

/-- One attempted match of the fenced-block regex
`(?:json)?\s*(\x7b[\s\S]*?)\s*` + closing fence, applied to the text right
after an opening ```.  The optional `json` tag is consumed when present
(backtracking to the empty alternative can never succeed afterwards, since
`\s*` cannot absorb a letter), then greedy whitespace, then the group must
begin at a literal open brace; the lazy body extends to the first later
```, and trailing whitespace is surrendered to `\s*`.  The service then
calls `.strip()` on `group(1)`; the composition equals `strip` of the
segment up to the closing fence. -/
def fenceAttempt (afterTicks : List Char) : Option (List Char) :=
  let body0 := if (['j', 's', 'o', 'n']).isPrefixOf afterTicks then afterTicks.drop 4 else afterTicks
  match body0.dropWhile isPySpace with
  | '{' :: rest => (takeUntilTicks rest).map (fun pre => strip ('{' :: pre))
  | _ => none

/-- `re.search(r'```(?:json)?\s*(\x7b[\s\S]*?)\s*```', text)` followed by
`.group(1).strip()` — leftmost match wins, the search advances one position
at a time. -/
def codeBlockMatch : List Char → Option (List Char)
  | [] => none
  | c :: rest =>
    if ticks.isPrefixOf (c :: rest) then
      match fenceAttempt rest.tail.tail with
      | some content => some content
      | none => codeBlockMatch rest
    else codeBlockMatch rest

/-- The depth-counted brace scan of lines 110–119 / 128–137: starting at an
open brace with counter `d = 0`, `+1` on every `\x7b`, `-1` on every `\x7d`,
stopping when the counter returns to zero.  Returns the number of characters
up to and including the closing brace, `none` when the counter never
returns to zero. -/
def scanBalanced : List Char → Int → Option Nat
  | [], _ => none
  | c :: rest, d =>
    if c = '{' then (scanBalanced rest (d + 1)).map (· + 1)
    else if c = '}' then
      if d - 1 = 0 then some 1 else (scanBalanced rest (d - 1)).map (· + 1)
    else (scanBalanced rest d).map (· + 1)

/-- `find('\x7b')` followed by the balanced scan and the slice
`[brace_start : brace_end + 1]`. -/
def braceSpan (cs : List Char) : Option (List Char) :=
  match cs.dropWhile (fun c => c != '{') with
  | [] => none
  | suffix => (scanBalanced suffix 0).map suffix.take

/-- The regex fallback `re.search(r'\x7b[\s\S]*\x7d', text)`: greedy match
from the first open brace to the last close brace after it. -/
def greedySpan (cs : List Char) : Option (List Char) :=
  match cs.dropWhile (fun c => c != '{') with
  | [] => none
  | c :: rest =>
    match rest.reverse.dropWhile (fun d => d != '}') with
    | [] => none
    | revTail => some (c :: revTail.reverse)

/-- Lines 99–146: the span-location logic of `generate_training_plan`.
When the fenced regex matches, only the balanced scan inside the block is
run (the `else` keeps both later strategies out of reach); otherwise the
raw text is scanned from its first brace, and only a scan that fails to
close falls through to the greedy regex. -/
def extractJsonText (cs : List Char) : Option (List Char) :=
  match codeBlockMatch cs with
  | some content => braceSpan content
  | none =>
    match cs.dropWhile (fun c => c != '{') with
    | [] => none
    | suffix =>
      match scanBalanced suffix 0 with
      | some n => some (suffix.take n)
      | none => greedySpan cs

/-- The repair pass `re.sub(r',(\s*[\x7d\]])', r'\1', json_text)` (line 159):
delete every comma that is followed by optional whitespace and a closing
brace or bracket.  `re.sub` resumes after each replaced match, but since a
match begins with a comma and the emitted replacement (the whitespace and
the closer) contains none, the single left-to-right pass coincides with
this per-comma rule. -/
def wsThenCloser (cs : List Char) : Bool :=
  match cs.dropWhile isPySpace with
  | d :: _ => d = '}' || d = ']'
  | [] => false

def stripTrailingCommas : List Char → List Char
  | [] => []
  | c :: rest =>
    if c = ',' && wsThenCloser rest then stripTrailingCommas rest
    else c :: stripTrailingCommas rest

/-! ## Strict JSON parsing (`json.loads`)

The service hands the repaired span to Python's strict JSON parser.  The
grammar below is RFC 8259 JSON: objects, arrays, strings with escapes,
numbers (no leading zeros, optional fraction/exponent), `true`/`false`/
`null`; numbers are carried as rationals.  Parsing is fuel-indexed so that
every definition stays kernel-reducible. -/

inductive Json where
  | null : Json
  | bool (b : Bool) : Json
  | num (q : ℚ) : Json
  | str (s : List Char) : Json
  | arr (elems : List Json) : Json
  | obj (fields : List (List Char × Json)) : Json

/-- JSON inter-token whitespace (RFC 8259: space, tab, LF, CR). -/
def isJsonWs (c : Char) : Bool :=
  c = ' ' || c = '\t' || c = '\n' || c = '\r'

def skipWs (cs : List Char) : List Char := cs.dropWhile isJsonWs

def escChar (c : Char) : Option Char :=
  if c = '"' then some '"'
  else if c = '\\' then some '\\'
  else if c = '/' then some '/'
  else if c = 'b' then some (Char.ofNat 8)
  else if c = 'f' then some (Char.ofNat 12)
  else if c = 'n' then some '\n'
  else if c = 'r' then some '\r'
  else if c = 't' then some '\t'
  else none

def hexVal (c : Char) : Option Nat :=
  if '0' ≤ c ∧ c ≤ '9' then some (c.toNat - 48)
  else if 'a' ≤ c ∧ c ≤ 'f' then some (c.toNat - 87)
  else if 'A' ≤ c ∧ c ≤ 'F' then some (c.toNat - 55)
  else none

/-- Parse the body of a string literal (the opening quote already
consumed); returns the decoded characters and the remainder after the
closing quote.  Unescaped control characters are rejected, as by strict
`json.loads`. -/
def parseStrBody : List Char → Option (List Char × List Char)
  | [] => none
  | '"' :: rest => some ([], rest)
  | '\\' :: 'u' :: h1 :: h2 :: h3 :: h4 :: rest =>
    match hexVal h1, hexVal h2, hexVal h3, hexVal h4 with
    | some a, some b, some c, some d =>
      let n := ((a * 16 + b) * 16 + c) * 16 + d
      if n.isValidChar then
        (parseStrBody rest).map (fun p => (Char.ofNat n :: p.1, p.2))
      else none
    | _, _, _, _ => none
  | '\\' :: e :: rest =>
    match escChar e with
    | some ec => (parseStrBody rest).map (fun p => (ec :: p.1, p.2))
    | none => none
  | c :: rest =>
    if c.toNat < 32 then none
    else (parseStrBody rest).map (fun p => (c :: p.1, p.2))

def digitsToNat (ds : List Char) : Nat :=
  ds.foldl (fun n c => n * 10 + (c.toNat - 48)) 0

/-- Parse a JSON number token: optional minus, integer part without leading
zeros, optional fraction, optional exponent. -/
def parseNum (cs : List Char) : Option (ℚ × List Char) :=
  let signed : Bool × List Char :=
    match cs with
    | '-' :: r => (true, r)
    | _ => (false, cs)
  let intDigits := signed.2.takeWhile Char.isDigit
  let afterInt := signed.2.dropWhile Char.isDigit
  if intDigits.isEmpty then none
  else if 1 < intDigits.length && intDigits.head? = some '0' then none
  else
    let magnitude : ℚ := (digitsToNat intDigits : ℚ)
    let fracStep : Option (ℚ × List Char) :=
      match afterInt with
      | '.' :: r =>
        let fracDigits := r.takeWhile Char.isDigit
        if fracDigits.isEmpty then none
        else some (magnitude + (digitsToNat fracDigits : ℚ) / ((10 : ℚ) ^ fracDigits.length),
                   r.dropWhile Char.isDigit)
      | _ => some (magnitude, afterInt)
    match fracStep with
    | none => none
    | some (base, afterFrac) =>
      let withExp : Option (ℚ × List Char) :=
        match afterFrac with
        | 'e' :: r => parseExp base r
        | 'E' :: r => parseExp base r
        | _ => some (base, afterFrac)
      match withExp with
      | none => none
      | some (v, rest) => some ((if signed.1 then -v else v), rest)
where
  parseExp (base : ℚ) (r : List Char) : Option (ℚ × List Char) :=
    let esigned : Bool × List Char :=
      match r with
      | '-' :: r2 => (true, r2)
      | '+' :: r2 => (false, r2)
      | _ => (false, r)
    let eds := esigned.2.takeWhile Char.isDigit
    if eds.isEmpty then none
    else
      let e := digitsToNat eds
      let v := if esigned.1 then base / ((10 : ℚ) ^ e) else base * ((10 : ℚ) ^ e)
      some (v, esigned.2.dropWhile Char.isDigit)

/-- Worklist of the recursive-descent parser: a value, the members of an
object (after `\x7b`, first member expected), or the elements of an array. -/
inductive PTask where
  | val : PTask
  | members (acc : List (List Char × Json)) : PTask
  | elems (acc : List Json) : PTask

def parseF : Nat → PTask → List Char → Option (Json × List Char)
  | 0, _, _ => none
  | Nat.succ f, PTask.val, cs =>
    match skipWs cs with
    | [] => none
    | c :: rest =>
      if c = '{' then
        match skipWs rest with
        | '}' :: rest2 => some (Json.obj [], rest2)
        | cs2 => parseF f (PTask.members []) cs2
      else if c = '[' then
        match skipWs rest with
        | ']' :: rest2 => some (Json.arr [], rest2)
        | cs2 => parseF f (PTask.elems []) cs2
      else if c = '"' then
        (parseStrBody rest).map (fun p => (Json.str p.1, p.2))
      else if (['t', 'r', 'u', 'e']).isPrefixOf (c :: rest) then
        some (Json.bool true, rest.drop 3)
      else if (['f', 'a', 'l', 's', 'e']).isPrefixOf (c :: rest) then
        some (Json.bool false, rest.drop 4)
      else if (['n', 'u', 'l', 'l']).isPrefixOf (c :: rest) then
        some (Json.null, rest.drop 3)
      else
        (parseNum (c :: rest)).map (fun p => (Json.num p.1, p.2))
  | Nat.succ f, PTask.members acc, cs =>
    match skipWs cs with
    | '"' :: rest =>
      match parseStrBody rest with
      | none => none
      | some (key, r1) =>
        match skipWs r1 with
        | ':' :: r2 =>
          match parseF f PTask.val r2 with
          | none => none
          | some (v, r3) =>
            match skipWs r3 with
            | ',' :: r4 => parseF f (PTask.members (acc ++ [(key, v)])) r4
            | '}' :: r4 => some (Json.obj (acc ++ [(key, v)]), r4)
            | _ => none
        | _ => none
    | _ => none
  | Nat.succ f, PTask.elems acc, cs =>
    match parseF f PTask.val cs with
    | none => none
    | some (v, r1) =>
      match skipWs r1 with
      | ',' :: r2 => parseF f (PTask.elems (acc ++ [v])) r2
      | ']' :: r2 => some (Json.arr (acc ++ [v]), r2)
      | _ => none

/-- `json.loads`: parse one value, then nothing but whitespace may remain. -/
def json_loads (cs : List Char) : Option Json :=
  match parseF (2 * cs.length + 4) PTask.val cs with
  | some (v, rest) => if (skipWs rest).isEmpty then some v else none
  | none => none

/-! ## Validation, section extraction, and the full pipeline -/

def planKey : List Char := "training_plan".data

/-- Python `dict` key lookup, later duplicate keys shadowing earlier ones. -/
def lookupKey : List (List Char × Json) → List Char → Option Json
  | [], _ => none
  | kv :: rest, k =>
    match lookupKey rest k with
    | some v => some v
    | none => if kv.1 = k then some kv.2 else none

/-- Line 183: `'training_plan' not in training_plan_json` (membership in the
parsed dict). -/
def jsonHasKey (j : Json) (k : List Char) : Bool :=
  match j with
  | Json.obj fields => fields.any (fun kv => kv.1 = k)
  | _ => false

/-- The parsed object carries a non-empty `training_plan` array. -/
def planNonEmpty (j : Json) : Bool :=
  match j with
  | Json.obj fields =>
    match lookupKey fields planKey with
    | some (Json.arr (_ :: _)) => true
    | _ => false
  | _ => false

/-- `_extract_section(text, start_marker, end_marker)` (lines 372–393). -/
def extractSection (text startMarker endMarker : List Char) : List Char :=
  match findSubIdx text startMarker with
  | none => []
  | some i =>
    let afterStart := text.drop (i + startMarker.length)
    match findSubIdx afterStart endMarker with
    | some k => strip (afterStart.take k)
    | none => strip afterStart

inductive ExtractError where
  | noJson : ExtractError
  | invalidJson : ExtractError
  | missingPlanKey : ExtractError
deriving DecidableEq

/-- The extraction pipeline applied to one raw model response: locate a
span, repair trailing commas, parse strictly, and require the plan-tree
key (each `ValueError` of the source becomes a distinct error). -/
def extractTrainingPlan (cs : List Char) : Except ExtractError Json :=
  match extractJsonText cs with
  | none => Except.error ExtractError.noJson
  | some jsonText =>
    match json_loads (stripTrailingCommas jsonText) with
    | none => Except.error ExtractError.invalidJson
    | some j =>
      if jsonHasKey j planKey then Except.ok j
      else Except.error ExtractError.missingPlanKey

/-! ## Input shapes for the extraction correctness bar (spec §4.3 / §8)

`CleanPlanText s` captures a well-formed JSON plan text as the adversarial
shapes embed it: it parses strictly to an object with a non-empty
`training_plan` array, begins at an open brace, balances exactly at its
final close brace under the code's depth scan (no stray brace inside a
string value), contains no fence backticks, and is left unchanged by the
comma-repair pass. -/

def noTicksIn (cs : List Char) : Bool := cs.all (fun c => c != '`')

def planOk (s : List Char) : Bool :=
  match json_loads s with
  | some j => planNonEmpty j
  | none => false

def CleanPlanText (s : List Char) : Prop :=
  planOk s = true ∧ s.head? = some '{' ∧ braceSpan s = some s ∧
    noTicksIn s = true ∧ stripTrailingCommas s = s

/-- A markdown code fence around the plan text, with or without the
`json` language tag. -/
def fenceWrap (label : Bool) (s : List Char) : List Char :=
  '`' :: '`' :: '`' :: ((if label then ['j', 's', 'o', 'n'] else []) ++ '\n' :: (s ++ '\n' :: ticks))

/-- The four adversarial response shapes of spec §4.3 built around a plan
text `s`: clean JSON, fenced JSON (labeled or unlabeled), JSON with
trailing prose, and JSON with trailing commas (any text whose comma-repair
yields `s`). -/
inductive PlanShape (s : List Char) : List Char → Prop where
  | clean : PlanShape s s
  | fenced (label : Bool) : PlanShape s (fenceWrap label s)
  | trailingProse (prose : List Char) (hp : noTicksIn prose = true) :
      PlanShape s (s ++ prose)
  | trailingCommas (u : List Char)
      (h1 : u.head? = some '{') (h2 : braceSpan u = some u)
      (h3 : noTicksIn u = true) (h4 : stripTrailingCommas u = s) :
      PlanShape s u

/-- The span-location strategy chain as the specification words it: fenced
extraction first; the unfenced scan attempted whenever the fenced strategy
yields no span; the greedy regex attempted whenever the brace scan fails
to close.  Stated for comparison with `extractJsonText`, the chain the
source actually implements. -/
def extractJsonTextClaimed (cs : List Char) : Option (List Char) :=
  match (codeBlockMatch cs).bind braceSpan with
  | some span => some span
  | none =>
    match braceSpan cs with
    | some span => some span
    | none => greedySpan cs

/-! ## Python `round` on rationals -/

/-- Round half to even (Python's `round` tie-breaking). -/
def roundHalfEven (q : ℚ) : ℤ :=
  let f : ℤ := ⌊q⌋
  let r : ℚ := q - (f : ℚ)
  if r < 1 / 2 then f
  else if 1 / 2 < r then f + 1
  else if f % 2 = 0 then f else f + 1

/-- Python `round(x, 2)`. -/
def round2 (q : ℚ) : ℚ := (roundHalfEven (q * 100) : ℚ) / 100

/-! ## Relational state and the training-plan endpoints
(`app/api/v1/training.py`) -/

structure AthleteRow where
  id : Nat
deriving DecidableEq

structure PlanRow where
  id : Nat
  athlete_id : Nat
  request_id : Nat
  training_plan_json : Json

/-- One `training_plan_activities` row (`app/db/schema.py` lines 214–235;
the composite key (plan, week, day, index) carries a unique constraint). -/
structure CompletionRow where
  plan_id : Nat
  week_number : Int
  day : List Char
  activity_index : Int
  is_completed : Bool
  completed_at : Option Nat
deriving DecidableEq

structure ApiDb where
  athletes : List AthleteRow
  plans : List PlanRow
  completions : List CompletionRow

/-- Modelled from the spec: `strava_db_service.get_first_athlete` — the
module `app/services/strava_db_service.py` used by the backend endpoints
is absent from the source snapshot (only its callers appear).  Per the
spec the core exposes athlete-scoped queries for the caller's athlete; in
this single-athlete design the endpoints resolve the authenticated
athlete as the first stored athlete row. -/
def get_first_athlete (db : ApiDb) : Option AthleteRow := db.athletes.head?

inductive ApiFailure where
  | planNotFound
  | athleteNotFound
  | accessDenied
  | serverError
deriving DecidableEq

/-- The `HTTPException` status code each failure is raised with. -/
def httpStatusOf : ApiFailure → Nat
  | ApiFailure.planNotFound => 404
  | ApiFailure.athleteNotFound => 404
  | ApiFailure.accessDenied => 403
  | ApiFailure.serverError => 500

/-- `GET /training/plan/\x7bplan_id\x7d` (lines 136–168): look the plan up by
id, resolve the authenticated athlete, refuse with 403 on an ownership
mismatch, otherwise return the plan. -/
def get_plan (db : ApiDb) (plan_id : Nat) : Except ApiFailure PlanRow :=
  match db.plans.find? (fun p => decide (p.id = plan_id)) with
  | none => Except.error ApiFailure.planNotFound
  | some plan =>
    match get_first_athlete db with
    | none => Except.error ApiFailure.athleteNotFound
    | some athlete =>
      if plan.athlete_id ≠ athlete.id then Except.error ApiFailure.accessDenied
      else Except.ok plan

/-- The completion-toggle request body (`ActivityCompletionRequest`). -/
structure CompletionReq where
  week_number : Int
  day : List Char
  activity_index : Int
  is_completed : Bool

/-- The filter of lines 244–249: same plan, week, day and activity index. -/
def matchesKey (plan_id : Nat) (c : CompletionReq) (r : CompletionRow) : Bool :=
  decide (r.plan_id = plan_id ∧ r.week_number = c.week_number ∧
    r.day = c.day ∧ r.activity_index = c.activity_index)

/-- The row the toggle leaves behind for its key:
`completed_at = datetime.utcnow() if is_completed else None`. -/
def canonCompletion (plan_id : Nat) (c : CompletionReq) (now : Nat) : CompletionRow :=
  ⟨plan_id, c.week_number, c.day, c.activity_index, c.is_completed,
    if c.is_completed then some now else none⟩

/-- Lines 251–265: mutate the first row matching the key in place, or
append a fresh row when none matches.  Returns the new table and the row
handed back in the response. -/
def upsertFirst (rows : List CompletionRow) (plan_id : Nat) (c : CompletionReq) (now : Nat) :
    List CompletionRow × CompletionRow :=
  match rows with
  | [] => ([canonCompletion plan_id c now], canonCompletion plan_id c now)
  | r :: rest =>
    if matchesKey plan_id c r then
      let updated : CompletionRow :=
        { r with is_completed := c.is_completed,
                 completed_at := if c.is_completed then some now else none }
      (updated :: rest, updated)
    else
      let tail := upsertFirst rest plan_id c now
      (r :: tail.1, tail.2)

/-- `PUT /training/plan/\x7bplan_id\x7d/activity` (lines 215–278). -/
def update_activity_completion (db : ApiDb) (plan_id : Nat) (c : CompletionReq) (now : Nat) :
    ApiDb × Except ApiFailure CompletionRow :=
  match db.plans.find? (fun p => decide (p.id = plan_id)) with
  | none => (db, Except.error ApiFailure.planNotFound)
  | some plan =>
    match get_first_athlete db with
    | none => (db, Except.error ApiFailure.athleteNotFound)
    | some athlete =>
      if plan.athlete_id ≠ athlete.id then (db, Except.error ApiFailure.accessDenied)
      else
        let result := upsertFirst db.completions plan_id c now
        ({ db with completions := result.1 }, Except.ok result.2)

def daysKey : List Char := "days".data

/-- One step of the progress walk: `len(week.get('days', []))`.  Python's
duck typing made explicit: `.get` requires the week to be a dict (`none`
models the `AttributeError` the endpoint surfaces as HTTP 500), and `len`
is defined on lists, strings and dicts only. -/
def weekDaysLen (w : Json) : Option Nat :=
  match w with
  | Json.obj fields =>
    match lookupKey fields daysKey with
    | none => some 0
    | some (Json.arr ds) => some ds.length
    | some (Json.str s) => some s.length
    | some (Json.obj gs) => some gs.length
    | some _ => none
  | _ => none

def sumWeekDays : List Json → Option Nat
  | [] => some 0
  | w :: rest =>
    match weekDaysLen w, sumWeekDays rest with
    | some a, some b => some (a + b)
    | _, _ => none

/-- Lines 307–309: `for week in plan.training_plan_json.get('training_plan', []):
total += len(week.get('days', []))`.  Iterating a non-list value raises
(`none`) unless it is an empty string or empty dict, which iterate zero
times. -/
def totalFromTree (j : Json) : Option Nat :=
  match j with
  | Json.obj fields =>
    match lookupKey fields planKey with
    | none => some 0
    | some (Json.arr ws) => sumWeekDays ws
    | some (Json.str []) => some 0
    | some (Json.obj []) => some 0
    | some _ => none
  | _ => none

structure ProgressOut where
  total_activities : Nat
  completed_activities : Nat
  progress_percentage : ℚ
deriving DecidableEq

/-- `GET /training/plan/\x7bplan_id\x7d/progress` (lines 281–328): total from
walking the stored tree, completed as a row count, percentage guarded
against a zero total and rounded to two decimals. -/
def get_plan_progress (db : ApiDb) (plan_id : Nat) : Except ApiFailure ProgressOut :=
  match db.plans.find? (fun p => decide (p.id = plan_id)) with
  | none => Except.error ApiFailure.planNotFound
  | some plan =>
    match get_first_athlete db with
    | none => Except.error ApiFailure.athleteNotFound
    | some athlete =>
      if plan.athlete_id ≠ athlete.id then Except.error ApiFailure.accessDenied
      else
        match totalFromTree plan.training_plan_json with
        | none => Except.error ApiFailure.serverError
        | some totalActivities =>
          let completed :=
            (db.completions.filter (fun r => decide (r.plan_id = plan_id ∧ r.is_completed = true))).length
          let pct : ℚ :=
            if 0 < totalActivities then (completed : ℚ) / (totalActivities : ℚ) * 100 else 0
          Except.ok ⟨totalActivities, completed, round2 pct⟩

/-! Documented plan-tree shape (spec §6) as structured data, for stating
what the walk computes on well-shaped trees. -/

structure DayEntry where
  day : List Char
  activity_type : List Char
  details : List Char

structure WeekEntry where
  week : Int
  days : List DayEntry

def dayToJson (d : DayEntry) : Json :=
  Json.obj [("day".data, Json.str d.day), ("activity_type".data, Json.str d.activity_type),
    ("details".data, Json.str d.details)]

def weekToJson (w : WeekEntry) : Json :=
  Json.obj [("week".data, Json.num (w.week : ℚ)), (daysKey, Json.arr (w.days.map dayToJson))]

def planTreeJson (ws : List WeekEntry) : Json :=
  Json.obj [(planKey, Json.arr (ws.map weekToJson))]

/-! ## Bulk sync and rate-limit propagation (`app/api/v1/strava.py`,
`sync_all`, lines 188–283) -/

inductive StravaError where
  | rateLimit
  | generic
deriving DecidableEq

/-- Modelled from the spec: the definition and raise site of
`StravaRateLimitError` (`_make_request` in
`app/services/strava_service.py` detecting HTTP 429) are absent from the
source snapshot — only the import and the `except StravaRateLimitError`
handlers in `app/api/v1/strava.py` appear.  Per spec §4.5/§7 a provider
rate-limit surfaces as the distinct typed error; any other HTTP failure
raises a generic error. -/
def makeRequest (status : Nat) (body : Json) : Except StravaError Json :=
  if status = 429 then Except.error StravaError.rateLimit
  else if 400 ≤ status then Except.error StravaError.generic
  else Except.ok body

/-- The externally-determined outcome of processing one activity inside the
`sync_all` loop: the saves succeed, some save/fetch raises a generic
exception, or a lap fetch raises the rate-limit error. -/
inductive ItemStep where
  | ok
  | fails
  | rateLimited
deriving DecidableEq, BEq

/-- Lines 225–263: per-item `try`, with `except StravaRateLimitError:
raise` re-raising the typed signal unmodified and `except Exception`
logging and continuing; the count grows only on successful saves. -/
def syncLoop : List ItemStep → Except StravaError Nat
  | [] => Except.ok 0
  | ItemStep.rateLimited :: _ => Except.error StravaError.rateLimit
  | ItemStep.fails :: rest => syncLoop rest
  | ItemStep.ok :: rest => (syncLoop rest).map (· + 1)

inductive SyncOutcome where
  | success (synced_count : Nat)
  | rateLimited429
  | failed500
deriving DecidableEq

/-- The endpoint boundary (lines 271–283): a completed loop returns the
success payload, `StravaRateLimitError` maps to HTTP 429 with the
cooldown message, any other exception to HTTP 500. -/
def sync_all (athleteFetch : Except StravaError Unit) (items : List ItemStep) : SyncOutcome :=
  match athleteFetch with
  | Except.error StravaError.rateLimit => SyncOutcome.rateLimited429
  | Except.error StravaError.generic => SyncOutcome.failed500
  | Except.ok _ =>
    match syncLoop items with
    | Except.ok n => SyncOutcome.success n
    | Except.error _ => SyncOutcome.rateLimited429

/-! ## The generation flow of `TrainingPlanService.generate_training_plan`
(request persisted and committed first, plan committed separately) -/

structure TrainingRequestRow where
  id : Nat
  athlete_id : Nat
deriving DecidableEq

structure TrainingPlanRow where
  request_id : Nat
  athlete_id : Nat
  insights : List Char
  summary : List Char
  training_plan_json : Json

/-- Committed state only: `db.add` followed by `db.commit()` appends; a
`db.rollback()` on the error path discards uncommitted pending writes and
never touches committed rows. -/
structure SvcDb where
  requests : List TrainingRequestRow
  plans : List TrainingPlanRow

inductive GenError where
  | athleteNotFound
  | modelCallFailed
  | extraction (e : ExtractError)
  | planCommitFailed
deriving DecidableEq

/-- Python `insights or default`: the empty string is falsy. -/
def orDefault (s dflt : List Char) : List Char := if s.isEmpty then dflt else s

/-- Lines 43–209 of `training_plan_service.py`.  External effects are
explicit inputs: whether the athlete row exists, the id the request row
receives, the model response (`none` for a raised API error), and whether
the plan commit itself succeeds.  The request commit happens before the
model call; every later failure reaches the `except` block, whose
`db.rollback()` affects only uncommitted writes.  (The source extracts the
insights/summary sections between locating the span and parsing it; both
are total, so the flow below orders them after the parse without changing
any outcome.) -/
def generate_training_plan (db : SvcDb) (athleteFound : Bool) (athlete_id : Nat)
    (freshRequestId : Nat) (modelResponse : Option (List Char)) (planCommitOk : Bool) :
    SvcDb × Except GenError TrainingPlanRow :=
  if !athleteFound then (db, Except.error GenError.athleteNotFound)
  else
    let req : TrainingRequestRow := ⟨freshRequestId, athlete_id⟩
    let db1 : SvcDb := { db with requests := db.requests ++ [req] }
    match modelResponse with
    | none => (db1, Except.error GenError.modelCallFailed)
    | some text =>
      match extractTrainingPlan text with
      | Except.error e => (db1, Except.error (GenError.extraction e))
      | Except.ok planJson =>
        let insights := extractSection text "Insights on the Objective".data "Summary".data
        let summary := extractSection text "Summary of the Plan Objective".data "JSON".data
        let plan : TrainingPlanRow :=
          ⟨freshRequestId, athlete_id,
            orDefault insights "Training plan generated successfully.".data,
            orDefault summary "A personalized training plan has been created for you.".data,
            planJson⟩
        if planCommitOk then ({ db1 with plans := db1.plans ++ [plan] }, Except.ok plan)
        else (db1, Except.error GenError.planCommitFailed)

/-! ## MCP server computations (`app/mcp/server.py`) -/

/-- Lines 58–61 of `get_activities`: pace only for a present, strictly
positive average speed (Python truthiness first, then the comparison). -/
def activityPace (average_speed : Option ℚ) : Option ℚ :=
  match average_speed with
  | some v => if v ≠ 0 ∧ 0 < v then some (1000 / (v * 60)) else none
  | none => none

/-- Line 69: `round(pace_min_per_km, 2) if pace_min_per_km else None`. -/
def activityPaceField (average_speed : Option ℚ) : Option ℚ :=
  match activityPace average_speed with
  | some p => if p ≠ 0 then some (round2 p) else none
  | none => none

/-- An `activities` row as `get_performance_trends` reads it. -/
structure ActivityRec where
  id : Nat
  average_speed : Option ℚ
  average_heartrate : Option ℚ
  distance : ℚ

/-- The inner `calculate_avg_pace` (lines 246–251). -/
def calculate_avg_pace (acts : List ActivityRec) : Option ℚ :=
  let speeds := acts.filterMap (fun a =>
    match a.average_speed with
    | some v => if v ≠ 0 ∧ 0 < v then some v else none
    | none => none)
  if speeds.isEmpty then none
  else some (1000 / ((speeds.sum / (speeds.length : ℚ)) * 60))

structure TrendsReport where
  total_runs : Nat
  first_half_avg_pace : Option ℚ
  second_half_avg_pace : Option ℚ
  pace_change : Option ℚ
  pace_trend : List Char
  average_heartrate : Option ℤ
  recent_avg_distance_km : ℚ
  older_avg_distance_km : ℚ

/-- `get_performance_trends` returns either the `error` dict for an empty
window or the trend report — a value either way, never an exception. -/
inductive TrendsResult where
  | noData
  | report (r : TrendsReport)

/-- Lines 229–281, over the queried window (activities of the athlete with
start date inside the trailing window, ascending). -/
def get_performance_trends (activities : List ActivityRec) : TrendsResult :=
  if activities.isEmpty then TrendsResult.noData
  else
    let mid := activities.length / 2
    let fhp := calculate_avg_pace (activities.take mid)
    let shp := calculate_avg_pace (activities.drop mid)
    let paceChange : Option ℚ :=
      match fhp, shp with
      | some x, some y => if x ≠ 0 ∧ y ≠ 0 then some (y - x) else none
      | _, _ => none
    let hrData := activities.filterMap (fun a =>
      match a.average_heartrate with
      | some h => if h ≠ 0 then some h else none
      | none => none)
    let recent := if 7 ≤ activities.length then activities.drop (activities.length - 7) else activities
    let older := if 7 ≤ activities.length then activities.take (activities.length - 7) else []
    let recentAvg : ℚ := if recent.isEmpty then 0 else ((recent.map ActivityRec.distance).sum / (recent.length : ℚ))
    let olderAvg : ℚ := if older.isEmpty then 0 else ((older.map ActivityRec.distance).sum / (older.length : ℚ))
    TrendsResult.report
      { total_runs := activities.length
        first_half_avg_pace :=
          match fhp with
          | some p => if p ≠ 0 then some (round2 p) else none
          | none => none
        second_half_avg_pace :=
          match shp with
          | some p => if p ≠ 0 then some (round2 p) else none
          | none => none
        pace_change :=
          match paceChange with
          | some pc => if pc ≠ 0 then some (round2 pc) else none
          | none => none
        pace_trend :=
          match paceChange with
          | some pc =>
            if pc ≠ 0 ∧ pc < 0 then "improving".data
            else if pc ≠ 0 ∧ 0 < pc then "declining".data
            else "stable".data
          | none => "stable".data
        average_heartrate :=
          if hrData.isEmpty then none
          else
            let avg := hrData.sum / (hrData.length : ℚ)
            if avg ≠ 0 then some (roundHalfEven avg) else none
        recent_avg_distance_km := round2 (recentAvg / 1000)
        older_avg_distance_km := round2 (olderAvg / 1000) }

/-! ## Concrete instances used by counterexamples and witnesses -/

/-- A clean JSON plan text whose `details`-like string value contains a
literal close brace: `\x7b"training_plan": ["\x7d"]\x7d`. -/
def cexC1 : List Char := "\x7b\"training_plan\": [\"\x7d\"]\x7d".data

/-- A fenced block whose inner braces never balance, followed by raw text
that would balance: ```` ```\x7b``` \x7d ````. -/
def cexC2 : List Char := "```\x7b``` \x7d".data

/-- A minimal clean plan text. -/
def planSample : List Char := "\x7b\"training_plan\": [1]\x7d".data

/-- A one-athlete, one-plan state whose stored tree has a single week with
a single day entry (total = 1). -/
def demoDb : ApiDb :=
  ⟨[⟨1⟩],
   [⟨1, 1, 1, planTreeJson [⟨1, [⟨"Monday".data, "Easy Run".data, "5km".data⟩]⟩]⟩],
   []⟩

/-- `demoDb` after toggling two completion tuples that name sessions that
do not exist in the stored tree (week 99). -/
def demoDbOver : ApiDb :=
  (update_activity_completion
    (update_activity_completion demoDb 1 ⟨99, "Xday".data, 0, true⟩ 5).1
    1 ⟨99, "Xday".data, 1, true⟩ 6).1

/-! ## Supporting lemmas: the brace scan, fence search, and strip -/

theorem noTicksIn_iff {cs : List Char} : noTicksIn cs = true ↔ ∀ c ∈ cs, c ≠ '`' := by
  simp [noTicksIn, List.all_eq_true]

theorem noTicksIn_append {xs ys : List Char} (hx : noTicksIn xs = true)
    (hy : noTicksIn ys = true) : noTicksIn (xs ++ ys) = true := by
  rw [noTicksIn_iff] at hx hy ⊢
  intro c hc
  rcases List.mem_append.mp hc with h | h
  · exact hx c h
  · exact hy c h

theorem ticks_prefix_head {c : Char} {l : List Char}
    (h : ticks.isPrefixOf (c :: l) = true) : c = '`' := by
  cases l with
  | nil => simp [ticks, List.isPrefixOf] at h
  | cons b bs =>
    cases bs with
    | nil => simp [ticks, List.isPrefixOf] at h
    | cons e es =>
      simp only [ticks, List.isPrefixOf, Bool.and_eq_true, beq_iff_eq] at h
      exact h.1.symm

theorem codeBlockMatch_eq_none {cs : List Char} (h : noTicksIn cs = true) :
    codeBlockMatch cs = none := by
  induction cs with
  | nil => rfl
  | cons c rest ih =>
    rw [noTicksIn_iff] at h
    have hc : c ≠ '`' := h c (by simp)
    have hrest : noTicksIn rest = true :=
      noTicksIn_iff.mpr (fun x hx => h x (by simp [hx]))
    have hpre : ticks.isPrefixOf (c :: rest) = false := by
      cases hb : ticks.isPrefixOf (c :: rest) with
      | false => rfl
      | true => exact absurd (ticks_prefix_head hb) hc
    simp [codeBlockMatch, hpre, ih hrest]

theorem scanBalanced_le_length :
    ∀ (cs : List Char) (d : Int) (n : Nat), scanBalanced cs d = some n → n ≤ cs.length := by
  intro cs
  induction cs with
  | nil => intro d n h; cases h
  | cons c rest ih =>
    intro d n h
    by_cases hc : c = '{'
    · simp only [scanBalanced, if_pos hc] at h
      obtain ⟨m, hm, hn⟩ := Option.map_eq_some'.mp h
      have := ih (d + 1) m hm
      simp only [List.length_cons]
      omega
    · by_cases hc2 : c = '}'
      · simp only [scanBalanced, if_neg hc, if_pos hc2] at h
        by_cases hd : d - 1 = 0
        · rw [if_pos hd] at h
          injection h with h
          simp only [List.length_cons]
          omega
        · rw [if_neg hd] at h
          obtain ⟨m, hm, hn⟩ := Option.map_eq_some'.mp h
          have := ih (d - 1) m hm
          simp only [List.length_cons]
          omega
      · simp only [scanBalanced, if_neg hc, if_neg hc2] at h
        obtain ⟨m, hm, hn⟩ := Option.map_eq_some'.mp h
        have := ih d m hm
        simp only [List.length_cons]
        omega

theorem scanBalanced_append :
    ∀ (cs : List Char) (d : Int) (n : Nat), scanBalanced cs d = some n →
      ∀ ys : List Char, scanBalanced (cs ++ ys) d = some n := by
  intro cs
  induction cs with
  | nil => intro d n h; cases h
  | cons c rest ih =>
    intro d n h ys
    rw [List.cons_append]
    by_cases hc : c = '{'
    · simp only [scanBalanced, if_pos hc] at h
      obtain ⟨m, hm, hn⟩ := Option.map_eq_some'.mp h
      simp only [scanBalanced, if_pos hc]
      rw [ih (d + 1) m hm ys]
      simp [hn]
    · by_cases hc2 : c = '}'
      · simp only [scanBalanced, if_neg hc, if_pos hc2] at h
        simp only [scanBalanced, if_neg hc, if_pos hc2]
        by_cases hd : d - 1 = 0
        · rw [if_pos hd] at h ⊢; exact h
        · rw [if_neg hd] at h ⊢
          obtain ⟨m, hm, hn⟩ := Option.map_eq_some'.mp h
          rw [ih (d - 1) m hm ys]
          simp [hn]
      · simp only [scanBalanced, if_neg hc, if_neg hc2] at h
        simp only [scanBalanced, if_neg hc, if_neg hc2]
        obtain ⟨m, hm, hn⟩ := Option.map_eq_some'.mp h
        rw [ih d m hm ys]
        simp [hn]

theorem getLast?_cons_of_ne_nil {α : Type} (a : α) {l : List α} (h : l ≠ []) :
    (a :: l).getLast? = l.getLast? := by
  cases l with
  | nil => exact absurd rfl h
  | cons b bs => exact List.getLast?_cons_cons

theorem scanBalanced_take_getLast :
    ∀ (cs : List Char) (d : Int) (n : Nat), scanBalanced cs d = some n →
      (cs.take n).getLast? = some '}' := by
  intro cs
  induction cs with
  | nil => intro d n h; cases h
  | cons c rest ih =>
    intro d n h
    by_cases hc : c = '{'
    · simp only [scanBalanced, if_pos hc] at h
      obtain ⟨m, hm, hn⟩ := Option.map_eq_some'.mp h
      have hih := ih (d + 1) m hm
      have hne : rest.take m ≠ [] := by
        intro hnil
        rw [hnil] at hih
        cases hih
      subst hn
      rw [List.take_succ_cons, getLast?_cons_of_ne_nil c hne]
      exact hih
    · by_cases hc2 : c = '}'
      · simp only [scanBalanced, if_neg hc, if_pos hc2] at h
        by_cases hd : d - 1 = 0
        · rw [if_pos hd] at h
          injection h with h
          subst h
          simp [hc2]
        · rw [if_neg hd] at h
          obtain ⟨m, hm, hn⟩ := Option.map_eq_some'.mp h
          have hih := ih (d - 1) m hm
          have hne : rest.take m ≠ [] := by
            intro hnil
            rw [hnil] at hih
            cases hih
          subst hn
          rw [List.take_succ_cons, getLast?_cons_of_ne_nil c hne]
          exact hih
      · simp only [scanBalanced, if_neg hc, if_neg hc2] at h
        obtain ⟨m, hm, hn⟩ := Option.map_eq_some'.mp h
        have hih := ih d m hm
        have hne : rest.take m ≠ [] := by
          intro hnil
          rw [hnil] at hih
          cases hih
        subst hn
        rw [List.take_succ_cons, getLast?_cons_of_ne_nil c hne]
        exact hih

theorem dropWhile_toBrace_cons (s' : List Char) :
    ('{' :: s').dropWhile (fun c => c != '{') = '{' :: s' := by
  simp [List.dropWhile_cons]

theorem scan_full_of_braceSpan_self {s' : List Char}
    (hspan : braceSpan ('{' :: s') = some ('{' :: s')) :
    scanBalanced ('{' :: s') 0 = some ('{' :: s').length := by
  unfold braceSpan at hspan
  rw [dropWhile_toBrace_cons] at hspan
  obtain ⟨n, hn, htake⟩ := Option.map_eq_some'.mp hspan
  have hlen : ('{' :: s').length ≤ n := by
    have := congrArg List.length htake
    simp only [List.length_take] at this
    omega
  have hle := scanBalanced_le_length ('{' :: s') 0 n hn
  have : n = ('{' :: s').length := le_antisymm hle hlen
  rw [← this]
  exact hn

theorem getLast_of_clean {s' : List Char}
    (hspan : braceSpan ('{' :: s') = some ('{' :: s')) :
    ('{' :: s').getLast? = some '}' := by
  have h := scanBalanced_take_getLast ('{' :: s') 0 _ (scan_full_of_braceSpan_self hspan)
  rwa [List.take_length] at h

theorem extractJsonText_unfenced {tail : List Char} {n : Nat}
    (ht : noTicksIn ('{' :: tail) = true)
    (hscan : scanBalanced ('{' :: tail) 0 = some n) :
    extractJsonText ('{' :: tail) = some (('{' :: tail).take n) := by
  unfold extractJsonText
  rw [codeBlockMatch_eq_none ht, dropWhile_toBrace_cons]
  simp [hscan]

theorem extractJsonText_clean {s' : List Char}
    (hspan : braceSpan ('{' :: s') = some ('{' :: s'))
    (ht : noTicksIn ('{' :: s') = true) :
    extractJsonText ('{' :: s') = some ('{' :: s') := by
  have h := extractJsonText_unfenced ht (scan_full_of_braceSpan_self hspan)
  rwa [List.take_length] at h

theorem extractJsonText_prose {s' prose : List Char}
    (hspan : braceSpan ('{' :: s') = some ('{' :: s'))
    (ht : noTicksIn ('{' :: s') = true) (hp : noTicksIn prose = true) :
    extractJsonText (('{' :: s') ++ prose) = some ('{' :: s') := by
  have hscan := scanBalanced_append ('{' :: s') 0 _ (scan_full_of_braceSpan_self hspan) prose
  rw [List.cons_append] at hscan
  have h := @extractJsonText_unfenced (s' ++ prose) _
    (by rw [← List.cons_append]; exact noTicksIn_append ht hp) hscan
  rw [List.cons_append]
  rw [h]
  have htk : ('{' :: (s' ++ prose)).take ('{' :: s').length = '{' :: s' := by
    simp only [List.length_cons, List.take_succ_cons]
    rw [List.take_left]
  rw [htk]

theorem takeUntilTicks_append {xs : List Char} (ys : List Char) (h : noTicksIn xs = true) :
    takeUntilTicks (xs ++ (ticks ++ ys)) = some xs := by
  induction xs with
  | nil =>
    simp only [List.nil_append, ticks, List.cons_append]
    rw [takeUntilTicks]
    simp [ticks, List.isPrefixOf]
  | cons c rest ih =>
    rw [noTicksIn_iff] at h
    have hc : c ≠ '`' := h c (by simp)
    have hrest : noTicksIn rest = true :=
      noTicksIn_iff.mpr (fun x hx => h x (by simp [hx]))
    have hpre : ticks.isPrefixOf (c :: (rest ++ (ticks ++ ys))) = false := by
      cases hb : ticks.isPrefixOf (c :: (rest ++ (ticks ++ ys))) with
      | false => rfl
      | true => exact absurd (ticks_prefix_head hb) hc
    rw [List.cons_append, takeUntilTicks]
    rw [hpre]
    simp [ih hrest]

theorem strip_brace_newline {s' : List Char}
    (hlast : ('{' :: s').getLast? = some '}') :
    strip ('{' :: (s' ++ ['\n'])) = '{' :: s' := by
  have h3 : ('{' :: s').reverse.head? = some '}' := by
    rw [List.head?_reverse]
    exact hlast
  obtain ⟨rtl, hr⟩ : ∃ rtl, ('{' :: s').reverse = '}' :: rtl := by
    cases hrev : ('{' :: s').reverse with
    | nil => rw [hrev] at h3; cases h3
    | cons a tl =>
      rw [hrev] at h3
      injection h3 with h3
      exact ⟨tl, by rw [← h3]⟩
  unfold strip rstrip lstrip
  have h1 : ('{' :: (s' ++ ['\n'])).reverse = '\n' :: ('{' :: s').reverse := by
    simp
  rw [h1, hr]
  have e1 : List.dropWhile isPySpace ('\n' :: '}' :: rtl) = '}' :: rtl := rfl
  rw [e1, ← hr, List.reverse_reverse]
  rfl

theorem codeBlockMatch_fenceWrap (label : Bool) {s' : List Char}
    (hlast : ('{' :: s').getLast? = some '}') (ht : noTicksIn ('{' :: s') = true) :
    codeBlockMatch (fenceWrap label ('{' :: s')) = some ('{' :: s') := by
  have hticks' : noTicksIn (s' ++ ['\n']) = true := by
    rw [noTicksIn_iff] at ht ⊢
    intro c hc
    rcases List.mem_append.mp hc with h | h
    · exact ht c (by simp [h])
    · simp only [List.mem_singleton] at h
      subst h
      decide
  have hstrip := strip_brace_newline hlast
  have htake : takeUntilTicks (s' ++ ('\n' :: ticks)) = some (s' ++ ['\n']) := by
    have := takeUntilTicks_append [] hticks'
    simpa using this
  cases label with
  | true =>
    have hfa : fenceAttempt ('j' :: 's' :: 'o' :: 'n' :: '\n' :: '{' :: (s' ++ '\n' :: ticks))
        = (takeUntilTicks (s' ++ '\n' :: ticks)).map (fun pre => strip ('{' :: pre)) := rfl
    have houter : codeBlockMatch (fenceWrap true ('{' :: s'))
        = (match fenceAttempt ('j' :: 's' :: 'o' :: 'n' :: '\n' :: '{' :: (s' ++ '\n' :: ticks)) with
           | some content => some content
           | none => codeBlockMatch ('`' :: '`' :: 'j' :: 's' :: 'o' :: 'n' :: '\n' :: '{' :: (s' ++ '\n' :: ticks))) := rfl
    rw [houter, hfa, htake]
    simp only [Option.map_some']
    rw [hstrip]
  | false =>
    have hfa : fenceAttempt ('\n' :: '{' :: (s' ++ '\n' :: ticks))
        = (takeUntilTicks (s' ++ '\n' :: ticks)).map (fun pre => strip ('{' :: pre)) := rfl
    have houter : codeBlockMatch (fenceWrap false ('{' :: s'))
        = (match fenceAttempt ('\n' :: '{' :: (s' ++ '\n' :: ticks)) with
           | some content => some content
           | none => codeBlockMatch ('`' :: '`' :: '\n' :: '{' :: (s' ++ '\n' :: ticks))) := rfl
    rw [houter, hfa, htake]
    simp only [Option.map_some']
    rw [hstrip]

theorem any_key_of_lookupKey :
    ∀ (fields : List (List Char × Json)) (k : List Char) (v : Json),
      lookupKey fields k = some v → fields.any (fun kv => kv.1 = k) = true := by
  intro fields
  induction fields with
  | nil => intro k v h; cases h
  | cons kv rest ih =>
    intro k v h
    rw [lookupKey] at h
    cases hrest : lookupKey rest k with
    | some w =>
      have := ih k w hrest
      simp [List.any_cons, this]
    | none =>
      rw [hrest] at h
      by_cases hk : kv.1 = k
      · simp [List.any_cons, hk]
      · rw [if_neg hk] at h; cases h

theorem jsonHasKey_of_planNonEmpty {j : Json} (h : planNonEmpty j = true) :
    jsonHasKey j planKey = true := by
  cases j with
  | obj fields =>
    have h2 : (match lookupKey fields planKey with
               | some (Json.arr (_ :: _)) => true
               | _ => false) = true := h
    show fields.any (fun kv => kv.1 = planKey) = true
    cases hlk : lookupKey fields planKey with
    | none => rw [hlk] at h2; simp at h2
    | some v => exact any_key_of_lookupKey fields planKey v hlk
  | null => cases h
  | bool b => cases h
  | num q => cases h
  | str s => cases h
  | arr es => cases h

/-! ## Claim C1 -/

/-- C1 as frozen fails on the code: `cexC1` is a clean JSON text whose
object carries a non-empty `training_plan` array (`planOk` holds), yet the
pipeline raises — the depth scan closes at the brace inside the string
value `"\x7d"`, truncating the span, and strict parsing then fails. -/
theorem extraction_four_shapes_cex :
    planOk cexC1 = true ∧
    extractTrainingPlan cexC1 = Except.error ExtractError.invalidJson :=
  ⟨rfl, rfl⟩

/-- C1 (amended): for every plan text `s` that parses to an object with a
non-empty `training_plan` array, starts at its open brace, brace-balances
exactly at its end under the code's scan (no unescaped brace inside a
string value mis-balancing it), is backtick-free and untouched by the
comma repair, the extraction pipeline of `generate_training_plan` succeeds
on all four adversarial shapes — clean, fenced (labeled or unlabeled),
trailing prose (backtick-free), and trailing commas — and returns the
parsed object with its non-empty plan-tree. -/
theorem extraction_four_shapes (s t : List Char) (hclean : CleanPlanText s)
    (hshape : PlanShape s t) :
    ∃ j, json_loads s = some j ∧ planNonEmpty j = true ∧
      extractTrainingPlan t = Except.ok j := by
  obtain ⟨hok, hhead, hspan, hticks, hstrip⟩ := hclean
  obtain ⟨s', rfl⟩ : ∃ s', s = '{' :: s' := by
    cases s with
    | nil => simp at hhead
    | cons a tl =>
      rw [List.head?_cons] at hhead
      injection hhead with hhead
      exact ⟨tl, by rw [hhead]⟩
  obtain ⟨j, hj, hne⟩ : ∃ j, json_loads ('{' :: s') = some j ∧ planNonEmpty j = true := by
    unfold planOk at hok
    split at hok
    next j hjl => exact ⟨j, hjl, hok⟩
    next => cases hok
  refine ⟨j, hj, hne, ?_⟩
  have hpipe : ∀ (tShape w : List Char), extractJsonText tShape = some w →
      stripTrailingCommas w = '{' :: s' → extractTrainingPlan tShape = Except.ok j := by
    intro tShape w h1 h2
    simp only [extractTrainingPlan, h1, h2, hj, jsonHasKey_of_planNonEmpty hne, if_true]
  cases hshape with
  | clean => exact hpipe _ _ (extractJsonText_clean hspan hticks) hstrip
  | fenced label =>
    have hlast := getLast_of_clean hspan
    have hcbm := codeBlockMatch_fenceWrap label hlast hticks
    have hext : extractJsonText (fenceWrap label ('{' :: s')) = some ('{' :: s') := by
      unfold extractJsonText
      rw [hcbm]
      exact hspan
    exact hpipe _ _ hext hstrip
  | trailingProse prose hp => exact hpipe _ _ (extractJsonText_prose hspan hticks hp) hstrip
  | trailingCommas u h1 h2 h3 h4 =>
    obtain ⟨u', rfl⟩ : ∃ u', t = '{' :: u' := by
      cases t with
      | nil => simp at h1
      | cons a tl =>
        rw [List.head?_cons] at h1
        injection h1 with h1
        exact ⟨tl, by rw [h1]⟩
    exact hpipe _ _ (extractJsonText_clean h2 h3) h4

theorem extraction_four_shapes_witness :
    ∃ j, json_loads planSample = some j ∧ planNonEmpty j = true ∧
      extractTrainingPlan (fenceWrap true planSample) = Except.ok j :=
  extraction_four_shapes planSample (fenceWrap true planSample)
    ⟨rfl, rfl, rfl, rfl, rfl⟩ (PlanShape.fenced true)

/-! ## Claim C2 -/

/-- C2 as frozen fails on the code: on `cexC2` the fenced regex matches a
block whose inner scan never closes, and the code fails outright
(`extractJsonText` yields nothing) even though the claimed strategy chain
would have continued to the unfenced scan and found a span. -/
theorem extraction_strategy_order_cex :
    extractJsonText cexC2 = none ∧
    extractJsonTextClaimed cexC2 = some ("\x7b``` \x7d".data) :=
  ⟨rfl, rfl⟩

/-- C2 (amended): the unfenced brace scan and the greedy regex fallback
are chained exactly as claimed only when no fenced block regex-matches at
all; when a fenced block matches, extraction commits to the balanced scan
inside that block and, if it fails to close, fails without attempting the
unfenced scan or the regex fallback. -/
theorem extraction_strategy_order (cs : List Char) :
    (∀ content, codeBlockMatch cs = some content →
      extractJsonText cs = braceSpan content) ∧
    (codeBlockMatch cs = none → extractJsonText cs = extractJsonTextClaimed cs) := by
  constructor
  · intro content h
    unfold extractJsonText
    rw [h]
  · intro h
    unfold extractJsonText extractJsonTextClaimed braceSpan greedySpan
    rw [h]
    simp only [Option.none_bind]
    cases hdw : cs.dropWhile (fun c => c != '{') with
    | nil => simp [hdw]
    | cons a tl =>
      cases hscan : scanBalanced (a :: tl) 0 with
      | some n => simp [hdw, hscan]
      | none => simp [hdw, hscan]

theorem extraction_strategy_order_witness :
    extractJsonText cexC2 = braceSpan ("\x7b".data) ∧
    extractJsonText planSample = extractJsonTextClaimed planSample :=
  ⟨(extraction_strategy_order cexC2).1 ("\x7b".data) rfl,
   (extraction_strategy_order planSample).2 rfl⟩

/-! ## Claim C3 -/

theorem syncLoop_abort (pre post : List ItemStep) (hpre : ItemStep.rateLimited ∉ pre) :
    syncLoop (pre ++ ItemStep.rateLimited :: post) = Except.error StravaError.rateLimit := by
  induction pre with
  | nil => rfl
  | cons i rest ih =>
    have hi : i ≠ ItemStep.rateLimited := fun h => hpre (by simp [h])
    have hrest : ItemStep.rateLimited ∉ rest := fun h => hpre (by simp [h])
    cases i with
    | ok => simp [List.cons_append, syncLoop, ih hrest, Except.map]
    | fails => simp [List.cons_append, syncLoop, ih hrest]
    | rateLimited => exact absurd rfl hi

theorem syncLoop_complete (items : List ItemStep) (h : ItemStep.rateLimited ∉ items) :
    syncLoop items = Except.ok (items.filter (fun i => i = ItemStep.ok)).length := by
  induction items with
  | nil => rfl
  | cons i rest ih =>
    have hrest : ItemStep.rateLimited ∉ rest := fun hm => h (by simp [hm])
    cases i with
    | ok => simp [syncLoop, ih hrest, List.filter_cons, Except.map]
    | fails => simp [syncLoop, ih hrest, List.filter_cons]
    | rateLimited => exact absurd (by simp) h

/-- C3: a provider rate-limit is a distinct typed error that re-raises
unmodified through the per-item catch blocks of `sync_all`, aborting the
whole batch no matter what follows, and surfaces as HTTP 429 —
distinguishable from generic failure — while ordinary item failures are
logged and skipped and the batch completes, counting only successful
saves.  (`StravaRateLimitError`'s raise site inside `_make_request` is
modelled from the spec; see `makeRequest`.) -/
theorem rate_limit_propagation (pre post : List ItemStep) (body : Json)
    (hpre : ItemStep.rateLimited ∉ pre) :
    sync_all (Except.ok ()) (pre ++ ItemStep.rateLimited :: post) = SyncOutcome.rateLimited429 ∧
    sync_all (Except.ok ()) pre
      = SyncOutcome.success (pre.filter (fun i => i = ItemStep.ok)).length ∧
    makeRequest 429 body = Except.error StravaError.rateLimit ∧
    SyncOutcome.rateLimited429 ≠ SyncOutcome.failed500 ∧
    (∀ n, SyncOutcome.rateLimited429 ≠ SyncOutcome.success n) := by
  refine ⟨?_, ?_, rfl, ?_, ?_⟩
  · simp [sync_all, syncLoop_abort pre post hpre]
  · simp [sync_all, syncLoop_complete pre hpre]
  · intro h
    cases h
  · intro n h
    cases h

theorem rate_limit_propagation_witness :
    sync_all (Except.ok ())
        ([ItemStep.ok, ItemStep.fails] ++ ItemStep.rateLimited :: [ItemStep.ok])
      = SyncOutcome.rateLimited429 ∧
    sync_all (Except.ok ()) [ItemStep.ok, ItemStep.fails]
      = SyncOutcome.success
          (([ItemStep.ok, ItemStep.fails].filter (fun i => i = ItemStep.ok)).length) ∧
    makeRequest 429 Json.null = Except.error StravaError.rateLimit ∧
    SyncOutcome.rateLimited429 ≠ SyncOutcome.failed500 ∧
    (∀ n, SyncOutcome.rateLimited429 ≠ SyncOutcome.success n) :=
  rate_limit_propagation [ItemStep.ok, ItemStep.fails] [ItemStep.ok] Json.null (by simp)

/-! ## Claim C5 -/

/-- C5: `get_plan` verifies ownership against the caller's (first stored)
athlete before returning data: a mismatch yields the access-denied
failure, raised as HTTP 403 and distinct from not-found 404, and plan data
is returned only when the owner matches the caller's athlete.
(`get_first_athlete` is modelled from the spec; its module is absent from
the snapshot.) -/
theorem ownership_check (db : ApiDb) (plan_id : Nat) (plan : PlanRow) (athlete : AthleteRow)
    (hfind : db.plans.find? (fun p => decide (p.id = plan_id)) = some plan)
    (hath : get_first_athlete db = some athlete) :
    (plan.athlete_id ≠ athlete.id →
      get_plan db plan_id = Except.error ApiFailure.accessDenied) ∧
    (∀ p, get_plan db plan_id = Except.ok p → p.athlete_id = athlete.id) ∧
    httpStatusOf ApiFailure.accessDenied = 403 ∧
    httpStatusOf ApiFailure.planNotFound = 404 ∧
    ApiFailure.accessDenied ≠ ApiFailure.planNotFound := by
  refine ⟨?_, ?_, rfl, rfl, fun h => by cases h⟩
  · intro hmis
    simp [get_plan, hfind, hath, hmis]
  · intro p hp
    rcases eq_or_ne plan.athlete_id athlete.id with he | he
    · simp [get_plan, hfind, hath, he] at hp
      rw [← hp]
      exact he
    · simp [get_plan, hfind, hath, he] at hp

theorem ownership_check_witness :
    get_plan ⟨[⟨1⟩], [⟨7, 2, 7, Json.obj []⟩], []⟩ 7
      = Except.error ApiFailure.accessDenied ∧
    httpStatusOf ApiFailure.accessDenied = 403 := by
  have h := ownership_check ⟨[⟨1⟩], [⟨7, 2, 7, Json.obj []⟩], []⟩ 7
    ⟨7, 2, 7, Json.obj []⟩ ⟨1⟩ rfl rfl
  exact ⟨h.1 (by decide), h.2.2.1⟩

/-! ## Claim C7 -/

theorem generate_eq_no_response (db : SvcDb) (aid fid : Nat) (pc : Bool) :
    generate_training_plan db true aid fid none pc
      = ({ db with requests := db.requests ++ [⟨fid, aid⟩] },
         Except.error GenError.modelCallFailed) := rfl

theorem generate_eq_extract_err (db : SvcDb) (aid fid : Nat) (text : List Char) (pc : Bool)
    (e : ExtractError) (hex : extractTrainingPlan text = Except.error e) :
    generate_training_plan db true aid fid (some text) pc
      = ({ db with requests := db.requests ++ [⟨fid, aid⟩] },
         Except.error (GenError.extraction e)) := by
  unfold generate_training_plan
  simp [hex]

theorem generate_eq_commit_fail (db : SvcDb) (aid fid : Nat) (text : List Char)
    (j : Json) (hex : extractTrainingPlan text = Except.ok j) :
    generate_training_plan db true aid fid (some text) false
      = ({ db with requests := db.requests ++ [⟨fid, aid⟩] },
         Except.error GenError.planCommitFailed) := by
  unfold generate_training_plan
  simp [hex]

/-- C7: the request row is committed before the model call, in a commit
separate from the plan write; for every failure after that point — model
call, extraction, or the plan commit itself — the rollback affects only
the uncommitted plan write: the request row stays committed, the plans
table is untouched, and the surviving error is never the pre-persistence
athlete-not-found failure. -/
theorem request_survives_failure (db : SvcDb) (athlete_id freshRequestId : Nat)
    (modelResponse : Option (List Char)) (planCommitOk : Bool) (e : GenError)
    (hrun : (generate_training_plan db true athlete_id freshRequestId modelResponse
        planCommitOk).2 = Except.error e) :
    (⟨freshRequestId, athlete_id⟩ : TrainingRequestRow) ∈
      (generate_training_plan db true athlete_id freshRequestId modelResponse
        planCommitOk).1.requests ∧
    (generate_training_plan db true athlete_id freshRequestId modelResponse
        planCommitOk).1.plans = db.plans ∧
    e ≠ GenError.athleteNotFound := by
  cases modelResponse with
  | none =>
    rw [generate_eq_no_response] at hrun ⊢
    refine ⟨by simp, rfl, ?_⟩
    have he := Except.error.inj hrun
    rw [← he]
    intro hcontra
    cases hcontra
  | some text =>
    cases hex : extractTrainingPlan text with
    | error ee =>
      rw [generate_eq_extract_err db athlete_id freshRequestId text planCommitOk ee hex]
        at hrun ⊢
      refine ⟨by simp, rfl, ?_⟩
      have he := Except.error.inj hrun
      rw [← he]
      intro hcontra
      cases hcontra
    | ok j =>
      cases planCommitOk with
      | true =>
        have : (generate_training_plan db true athlete_id freshRequestId (some text) true).2
            = Except.ok (⟨freshRequestId, athlete_id,
                orDefault (extractSection text "Insights on the Objective".data "Summary".data)
                  "Training plan generated successfully.".data,
                orDefault (extractSection text "Summary of the Plan Objective".data "JSON".data)
                  "A personalized training plan has been created for you.".data, j⟩) := by
          unfold generate_training_plan
          simp [hex]
        rw [this] at hrun
        cases hrun
      | false =>
        rw [generate_eq_commit_fail db athlete_id freshRequestId text j hex] at hrun ⊢
        refine ⟨by simp, rfl, ?_⟩
        have he := Except.error.inj hrun
        rw [← he]
        intro hcontra
        cases hcontra

theorem request_survives_failure_witness :
    (⟨11, 3⟩ : TrainingRequestRow) ∈
      (generate_training_plan ⟨[], []⟩ true 3 11 (some "no json here".data) true).1.requests ∧
    (generate_training_plan ⟨[], []⟩ true 3 11 (some "no json here".data) true).1.plans = [] ∧
    GenError.extraction ExtractError.noJson ≠ GenError.athleteNotFound :=
  request_survives_failure ⟨[], []⟩ 3 11 (some "no json here".data) true
    (GenError.extraction ExtractError.noJson) rfl

/-! ## Claim C8 -/

/-- C8: the derived pace is `1000 / (average_speed · 60)` rounded to two
decimals, computed only for a present, strictly positive average speed;
3.0 m/s rounds to 5.56 min/km, and an absent or zero speed yields a null
pace — a value, never zero and never an error. -/
theorem activity_pace_spec (v : ℚ) (hv : 0 < v) :
    activityPaceField none = none ∧
    activityPaceField (some 0) = none ∧
    activityPaceField (some v) = some (round2 (1000 / (v * 60))) ∧
    round2 (1000 / ((3 : ℚ) * 60)) = 139 / 25 := by
  have hround : round2 (1000 / ((3 : ℚ) * 60)) = 139 / 25 := by
    have h1 : (1000 : ℚ) / (3 * 60) * 100 = 5000 / 9 := by norm_num
    have h2 : ⌊(5000 : ℚ) / 9⌋ = 555 := by
      rw [Int.floor_eq_iff]
      norm_num
    simp only [round2, roundHalfEven, h1, h2]
    norm_num
  refine ⟨rfl, by simp [activityPaceField, activityPace], ?_, hround⟩
  have hne : v ≠ 0 := ne_of_gt hv
  have hpos : (0 : ℚ) < 1000 / (v * 60) := by positivity
  simp [activityPaceField, activityPace, hne, hv, ne_of_gt hpos]

theorem activity_pace_spec_witness :
    activityPaceField none = none ∧
    activityPaceField (some 0) = none ∧
    activityPaceField (some 3) = some (round2 (1000 / ((3 : ℚ) * 60))) ∧
    round2 (1000 / ((3 : ℚ) * 60)) = 139 / 25 :=
  activity_pace_spec 3 (by norm_num)

/-! ## Claim C9 -/

/-- C9: `get_performance_trends` on an empty trailing window returns the
distinct no-data value (the `error` dict), and on any non-empty window
returns a report — in both cases a returned value of a total function,
never a raised exception. -/
theorem performance_trends_empty_window (acts : List ActivityRec) :
    get_performance_trends [] = TrendsResult.noData ∧
    (acts ≠ [] → ∃ r, get_performance_trends acts = TrendsResult.report r) ∧
    (∀ r, TrendsResult.noData ≠ TrendsResult.report r) := by
  refine ⟨rfl, ?_, fun r h => by cases h⟩
  intro h
  have hne : ¬acts.isEmpty = true := by simp [List.isEmpty_iff, h]
  unfold get_performance_trends
  simp only [if_neg hne]
  exact ⟨_, rfl⟩

theorem performance_trends_empty_window_witness :
    ∃ r, get_performance_trends [⟨1, some 3, none, 5000⟩] = TrendsResult.report r :=
  (performance_trends_empty_window [⟨1, some 3, none, 5000⟩]).2.1 (by simp)

/-! ## Upsert lemmas for the completion toggle -/

theorem matchesKey_canon (plan_id : Nat) (c : CompletionReq) (now : Nat) :
    matchesKey plan_id c (canonCompletion plan_id c now) = true := by
  simp [matchesKey, canonCompletion]

theorem update_row_eq_canon {plan_id : Nat} {c : CompletionReq} {r : CompletionRow}
    (hm : matchesKey plan_id c r = true) (now : Nat) :
    ({ r with is_completed := c.is_completed,
              completed_at := if c.is_completed then some now else none })
      = canonCompletion plan_id c now := by
  unfold matchesKey at hm
  obtain ⟨h1, h2, h3, h4⟩ := of_decide_eq_true hm
  cases r
  simp_all [canonCompletion]

theorem upsertFirst_snd (rows : List CompletionRow) (plan_id : Nat) (c : CompletionReq)
    (now : Nat) :
    (upsertFirst rows plan_id c now).2 = canonCompletion plan_id c now := by
  induction rows with
  | nil => rfl
  | cons r rest ih =>
    by_cases hm : matchesKey plan_id c r = true
    · simp [upsertFirst, hm, update_row_eq_canon hm now]
    · simp [upsertFirst, hm, ih]

theorem upsertFirst_mem_snd (rows : List CompletionRow) (plan_id : Nat) (c : CompletionReq)
    (now : Nat) :
    (upsertFirst rows plan_id c now).2 ∈ (upsertFirst rows plan_id c now).1 := by
  induction rows with
  | nil => simp [upsertFirst]
  | cons r rest ih =>
    by_cases hm : matchesKey plan_id c r = true
    · simp [upsertFirst, hm]
    · simp only [upsertFirst, hm, if_false, Bool.false_eq_true]
      exact List.mem_cons_of_mem r ih

theorem upsertFirst_filter (rows : List CompletionRow) (plan_id : Nat) (c : CompletionReq)
    (now : Nat) (h : (rows.filter (matchesKey plan_id c)).length ≤ 1) :
    (upsertFirst rows plan_id c now).1.filter (matchesKey plan_id c)
      = [canonCompletion plan_id c now] := by
  induction rows with
  | nil => simp [upsertFirst, matchesKey_canon]
  | cons r rest ih =>
    by_cases hm : matchesKey plan_id c r = true
    · have hrest : rest.filter (matchesKey plan_id c) = [] := by
        rw [List.filter_cons_of_pos hm] at h
        simp only [List.length_cons] at h
        have : (rest.filter (matchesKey plan_id c)).length = 0 := by omega
        exact List.length_eq_zero.mp this
      simp [upsertFirst, hm, update_row_eq_canon hm now,
        List.filter_cons_of_pos (matchesKey_canon plan_id c now), hrest]
    · rw [List.filter_cons_of_neg (by simpa using hm)] at h
      simp only [upsertFirst, hm, if_false, Bool.false_eq_true]
      rw [List.filter_cons_of_neg (by simpa using hm)]
      exact ih h

theorem upsertFirst_length_of_match (rows : List CompletionRow) (plan_id : Nat)
    (c : CompletionReq) (now : Nat) (h : ∃ r ∈ rows, matchesKey plan_id c r = true) :
    (upsertFirst rows plan_id c now).1.length = rows.length := by
  induction rows with
  | nil =>
    obtain ⟨r, hr, _⟩ := h
    cases hr
  | cons r rest ih =>
    by_cases hm : matchesKey plan_id c r = true
    · simp [upsertFirst, hm]
    · obtain ⟨x, hx, hmx⟩ := h
      rcases List.mem_cons.mp hx with rfl | hx2
      · exact absurd hmx hm
      · simp only [upsertFirst, hm, if_false, Bool.false_eq_true, List.length_cons]
        rw [ih ⟨x, hx2, hmx⟩]

theorem update_activity_completion_eq (db : ApiDb) (plan_id : Nat) (c : CompletionReq)
    (now : Nat) (plan : PlanRow) (athlete : AthleteRow)
    (hfind : db.plans.find? (fun p => decide (p.id = plan_id)) = some plan)
    (hath : get_first_athlete db = some athlete)
    (hown : plan.athlete_id = athlete.id) :
    update_activity_completion db plan_id c now
      = ({ db with completions := (upsertFirst db.completions plan_id c now).1 },
         Except.ok (upsertFirst db.completions plan_id c now).2) := by
  simp [update_activity_completion, hfind, hath, hown]

/-! ## Claim C4 -/

/-- C4: the completion toggle is an upsert by the composite key
(plan, week, day, activity index).  Starting from a table satisfying the
key's uniqueness constraint, toggling the same tuple to true twice leaves
exactly one row for that key — completed, with a non-null timestamp — and
adds no second row; toggling back to false leaves the single row
not-completed with its timestamp cleared to null, not left stale. -/
theorem completion_upsert_idempotent
    (db : ApiDb) (plan_id : Nat) (w : Int) (d : List Char) (i : Int) (now1 now2 : Nat)
    (plan : PlanRow) (athlete : AthleteRow)
    (hfind : db.plans.find? (fun p => decide (p.id = plan_id)) = some plan)
    (hath : get_first_athlete db = some athlete)
    (hown : plan.athlete_id = athlete.id)
    (huniq : (db.completions.filter (matchesKey plan_id ⟨w, d, i, true⟩)).length ≤ 1) :
    ((update_activity_completion
        (update_activity_completion db plan_id ⟨w, d, i, true⟩ now1).1
        plan_id ⟨w, d, i, true⟩ now2).1.completions.filter
          (matchesKey plan_id ⟨w, d, i, true⟩)
      = [⟨plan_id, w, d, i, true, some now2⟩]) ∧
    ((update_activity_completion
        (update_activity_completion db plan_id ⟨w, d, i, true⟩ now1).1
        plan_id ⟨w, d, i, true⟩ now2).1.completions.length
      = (update_activity_completion db plan_id ⟨w, d, i, true⟩ now1).1.completions.length) ∧
    ((update_activity_completion
        (update_activity_completion db plan_id ⟨w, d, i, true⟩ now1).1
        plan_id ⟨w, d, i, false⟩ now2).1.completions.filter
          (matchesKey plan_id ⟨w, d, i, true⟩)
      = [⟨plan_id, w, d, i, false, none⟩]) ∧
    ((update_activity_completion
        (update_activity_completion db plan_id ⟨w, d, i, true⟩ now1).1
        plan_id ⟨w, d, i, false⟩ now2).2
      = Except.ok ⟨plan_id, w, d, i, false, none⟩) := by
  have h1 := update_activity_completion_eq db plan_id ⟨w, d, i, true⟩ now1 plan athlete
    hfind hath hown
  rw [h1]
  have hfilter1 : ((upsertFirst db.completions plan_id ⟨w, d, i, true⟩ now1).1.filter
      (matchesKey plan_id ⟨w, d, i, true⟩)) = [canonCompletion plan_id ⟨w, d, i, true⟩ now1] :=
    upsertFirst_filter db.completions plan_id ⟨w, d, i, true⟩ now1 huniq
  have hle1 : ((upsertFirst db.completions plan_id ⟨w, d, i, true⟩ now1).1.filter
      (matchesKey plan_id ⟨w, d, i, true⟩)).length ≤ 1 := by
    rw [hfilter1]
    simp
  have hmem1 : ∃ r ∈ (upsertFirst db.completions plan_id ⟨w, d, i, true⟩ now1).1,
      matchesKey plan_id ⟨w, d, i, true⟩ r = true := by
    refine ⟨canonCompletion plan_id ⟨w, d, i, true⟩ now1, ?_, matchesKey_canon _ _ _⟩
    have : canonCompletion plan_id ⟨w, d, i, true⟩ now1
        ∈ (upsertFirst db.completions plan_id ⟨w, d, i, true⟩ now1).1.filter
          (matchesKey plan_id ⟨w, d, i, true⟩) := by
      rw [hfilter1]
      simp
    exact (List.mem_filter.mp this).1
  have h2 := update_activity_completion_eq
    ({ db with completions := (upsertFirst db.completions plan_id ⟨w, d, i, true⟩ now1).1 })
    plan_id ⟨w, d, i, true⟩ now2 plan athlete hfind hath hown
  have h3 := update_activity_completion_eq
    ({ db with completions := (upsertFirst db.completions plan_id ⟨w, d, i, true⟩ now1).1 })
    plan_id ⟨w, d, i, false⟩ now2 plan athlete hfind hath hown
  rw [h2, h3]
  refine ⟨?_, ?_, ?_, ?_⟩
  · exact upsertFirst_filter _ plan_id ⟨w, d, i, true⟩ now2 hle1
  · exact upsertFirst_length_of_match _ plan_id ⟨w, d, i, true⟩ now2 hmem1
  · exact upsertFirst_filter _ plan_id ⟨w, d, i, false⟩ now2 hle1
  · simp [upsertFirst_snd, canonCompletion]

theorem completion_upsert_idempotent_witness :
    ((update_activity_completion
        (update_activity_completion demoDb 1 ⟨1, "Monday".data, 0, true⟩ 5).1
        1 ⟨1, "Monday".data, 0, true⟩ 6).1.completions.filter
          (matchesKey 1 ⟨1, "Monday".data, 0, true⟩)
      = [⟨1, 1, "Monday".data, 0, true, some 6⟩]) ∧
    ((update_activity_completion
        (update_activity_completion demoDb 1 ⟨1, "Monday".data, 0, true⟩ 5).1
        1 ⟨1, "Monday".data, 0, true⟩ 6).1.completions.length
      = (update_activity_completion demoDb 1 ⟨1, "Monday".data, 0, true⟩ 5).1.completions.length) ∧
    ((update_activity_completion
        (update_activity_completion demoDb 1 ⟨1, "Monday".data, 0, true⟩ 5).1
        1 ⟨1, "Monday".data, 0, false⟩ 6).1.completions.filter
          (matchesKey 1 ⟨1, "Monday".data, 0, true⟩)
      = [⟨1, 1, "Monday".data, 0, false, none⟩]) ∧
    ((update_activity_completion
        (update_activity_completion demoDb 1 ⟨1, "Monday".data, 0, true⟩ 5).1
        1 ⟨1, "Monday".data, 0, false⟩ 6).2
      = Except.ok ⟨1, 1, "Monday".data, 0, false, none⟩) :=
  completion_upsert_idempotent demoDb 1 1 "Monday".data 0 5 6
    ⟨1, 1, 1, planTreeJson [⟨1, [⟨"Monday".data, "Easy Run".data, "5km".data⟩]⟩]⟩ ⟨1⟩
    rfl rfl rfl (by simp [demoDb])

/-! ## Claim C6 -/

theorem round2_zero : round2 0 = 0 := by
  simp [round2, roundHalfEven]

theorem weekDaysLen_weekToJson (wk : WeekEntry) :
    weekDaysLen (weekToJson wk) = some wk.days.length := by
  have hlk : lookupKey [("week".data, Json.num (wk.week : ℚ)),
      (daysKey, Json.arr (wk.days.map dayToJson))] daysKey
      = some (Json.arr (wk.days.map dayToJson)) := by
    simp [lookupKey]
  simp [weekDaysLen, weekToJson, hlk]

theorem sumWeekDays_map (ws : List WeekEntry) :
    sumWeekDays (ws.map weekToJson) = some ((ws.map (fun w => w.days.length)).sum) := by
  induction ws with
  | nil => rfl
  | cons w rest ih => simp [sumWeekDays, weekDaysLen_weekToJson, ih]

theorem totalFromTree_planTreeJson (ws : List WeekEntry) :
    totalFromTree (planTreeJson ws) = some ((ws.map (fun w => w.days.length)).sum) := by
  have hlk : lookupKey [(planKey, Json.arr (ws.map weekToJson))] planKey
      = some (Json.arr (ws.map weekToJson)) := by
    simp [lookupKey]
  simp [totalFromTree, planTreeJson, hlk, sumWeekDays_map]

/-- C6: `get_plan_progress` recomputes the total by walking the stored
plan-tree and summing the day entries of each week, counts completions as
the rows with `is_completed = true` for the plan, and returns the
percentage `completed / total * 100` rounded to two decimals — exactly 0
when the total is zero, with no division fault; a plan with no completion
rows reports zero completed and percentage exactly 0. -/
theorem progress_recomputed (db : ApiDb) (plan_id : Nat) (plan : PlanRow)
    (athlete : AthleteRow) (ws : List WeekEntry)
    (hfind : db.plans.find? (fun p => decide (p.id = plan_id)) = some plan)
    (hath : get_first_athlete db = some athlete)
    (hown : plan.athlete_id = athlete.id)
    (htree : plan.training_plan_json = planTreeJson ws) :
    (0 < (ws.map (fun w => w.days.length)).sum →
      get_plan_progress db plan_id = Except.ok ⟨(ws.map (fun w => w.days.length)).sum,
        (db.completions.filter
          (fun r => decide (r.plan_id = plan_id ∧ r.is_completed = true))).length,
        round2 (((db.completions.filter
            (fun r => decide (r.plan_id = plan_id ∧ r.is_completed = true))).length : ℚ)
          / (((ws.map (fun w => w.days.length)).sum : ℕ) : ℚ) * 100)⟩) ∧
    ((ws.map (fun w => w.days.length)).sum = 0 →
      get_plan_progress db plan_id = Except.ok ⟨0,
        (db.completions.filter
          (fun r => decide (r.plan_id = plan_id ∧ r.is_completed = true))).length, 0⟩) ∧
    ((∀ r ∈ db.completions, ¬(r.plan_id = plan_id ∧ r.is_completed = true)) →
      get_plan_progress db plan_id
        = Except.ok ⟨(ws.map (fun w => w.days.length)).sum, 0, 0⟩) := by
  have hprog : get_plan_progress db plan_id
      = Except.ok ⟨(ws.map (fun w => w.days.length)).sum,
          (db.completions.filter
            (fun r => decide (r.plan_id = plan_id ∧ r.is_completed = true))).length,
          round2 (if 0 < (ws.map (fun w => w.days.length)).sum
            then ((db.completions.filter
                (fun r => decide (r.plan_id = plan_id ∧ r.is_completed = true))).length : ℚ)
              / (((ws.map (fun w => w.days.length)).sum : ℕ) : ℚ) * 100
            else 0)⟩ := by
    simp [get_plan_progress, hfind, hath, hown, htree, totalFromTree_planTreeJson]
  refine ⟨?_, ?_, ?_⟩
  · intro hpos
    rw [hprog, if_pos hpos]
  · intro hzero
    rw [hprog, if_neg (by omega), round2_zero, hzero]
  · intro hnone
    have hfil : db.completions.filter
        (fun r => decide (r.plan_id = plan_id ∧ r.is_completed = true)) = [] := by
      rw [List.filter_eq_nil_iff]
      intro r hr
      simpa using hnone r hr
    rw [hprog, hfil]
    rcases Nat.eq_zero_or_pos ((ws.map (fun w => w.days.length)).sum) with hz | hp
    · rw [if_neg (by omega), round2_zero]
      simp
    · rw [if_pos hp]
      simp only [List.length_nil, Nat.cast_zero, zero_div, zero_mul, round2_zero]

theorem progress_recomputed_witness :
    get_plan_progress demoDb 1 = Except.ok ⟨1, 0, 0⟩ :=
  ((progress_recomputed demoDb 1
    ⟨1, 1, 1, planTreeJson [⟨1, [⟨"Monday".data, "Easy Run".data, "5km".data⟩]⟩]⟩ ⟨1⟩
    [⟨1, [⟨"Monday".data, "Easy Run".data, "5km".data⟩]⟩]
    rfl rfl rfl rfl).2.2) (by simp [demoDb])

/-! ## Claim C10 -/

/-- C10: the completion upsert accepts any (week, day, index) tuple
without consulting the stored plan-tree — the returned row carries exactly
the requested tuple, and is stored even when it names a session absent
from the tree — and since progress counts all completed rows while the
total comes only from the tree, `demoDbOver` (total 1, two out-of-tree
completions) reports `completed_activities = 2 > total_activities = 1` and
`progress_percentage = 200 > 100`. -/
theorem completion_no_tree_validation (db : ApiDb) (plan_id : Nat) (c : CompletionReq)
    (now : Nat) (plan : PlanRow) (athlete : AthleteRow)
    (hfind : db.plans.find? (fun p => decide (p.id = plan_id)) = some plan)
    (hath : get_first_athlete db = some athlete)
    (hown : plan.athlete_id = athlete.id) :
    ((update_activity_completion db plan_id c now).2
      = Except.ok (canonCompletion plan_id c now)) ∧
    canonCompletion plan_id c now
      ∈ (update_activity_completion db plan_id c now).1.completions ∧
    get_plan_progress demoDbOver 1 = Except.ok ⟨1, 2, 200⟩ := by
  have h1 := update_activity_completion_eq db plan_id c now plan athlete hfind hath hown
  rw [h1]
  refine ⟨by rw [upsertFirst_snd], ?_, ?_⟩
  · have := upsertFirst_mem_snd db.completions plan_id c now
    rwa [upsertFirst_snd] at this
  · have hval : get_plan_progress demoDbOver 1
        = Except.ok ⟨1, 2, round2 (((2 : ℕ) : ℚ) / ((1 : ℕ) : ℚ) * 100)⟩ := rfl
    have harg : ((2 : ℕ) : ℚ) / ((1 : ℕ) : ℚ) * 100 = 200 := by norm_num
    have hr200 : round2 (200 : ℚ) = 200 := by
      have hfl : ⌊(200 : ℚ) * 100⌋ = 20000 := by norm_num
      simp only [round2, roundHalfEven, hfl]
      norm_num
    rw [hval, harg, hr200]

theorem completion_no_tree_validation_witness :
    ((update_activity_completion demoDb 1 ⟨99, "Xday".data, 0, true⟩ 5).2
      = Except.ok (canonCompletion 1 ⟨99, "Xday".data, 0, true⟩ 5)) ∧
    canonCompletion 1 ⟨99, "Xday".data, 0, true⟩ 5
      ∈ (update_activity_completion demoDb 1 ⟨99, "Xday".data, 0, true⟩ 5).1.completions ∧
    get_plan_progress demoDbOver 1 = Except.ok ⟨1, 2, 200⟩ :=
  completion_no_tree_validation demoDb 1 ⟨99, "Xday".data, 0, true⟩ 5
    ⟨1, 1, 1, planTreeJson [⟨1, [⟨"Monday".data, "Easy Run".data, "5km".data⟩]⟩]⟩ ⟨1⟩
    rfl rfl rfl

end PaceUp
